import Mathlib

/-!
Verification of the dubbing pipeline's timing-synchronization core.

Shallow embedding conventions:
* A pydub `AudioSegment` is modelled at millisecond granularity as `List Int`
  (one entry per millisecond of audio): `len(audio)` is the list length,
  `audio[:n]` is `List.take n`, `AudioSegment.silent(d)` is
  `List.replicate d 0`, and `+` is list append.  All pydub operations used by
  the code under study (`len`, slicing, `silent`, `+`) index in whole
  milliseconds, so this granularity is faithful.
* Python `str` is modelled as `List Char` (`len` is `List.length`,
  `strip`/`split` are re-implemented below following CPython semantics).
* Python floats holding durations and ratios are modelled as `ℚ`.
* Calls that shell out to ffmpeg are abstracted as function parameters.
-/

namespace Dubfilm

/-! ## Python string primitives (`str.strip`, `str.split`) -/

/-- A python string as a list of characters. -/
abbrev PyStr := List Char

/-- Whitespace test used by `str.strip()` / `str.split()`. -/
def isWS (c : Char) : Bool := c.isWhitespace

/-- Python `str.strip()`: drop leading and trailing whitespace. -/
def pyStrip (s : PyStr) : PyStr :=
  ((s.dropWhile isWS).reverse.dropWhile isWS).reverse

/-- Scanner for `str.split()`: `acc` holds the characters of the word in
progress (reversed); whitespace closes the word, other characters extend
it, and a word in progress is flushed at the end of the string. -/
def pyWordsAux : PyStr → PyStr → List PyStr
  | [], acc => if acc = [] then [] else [acc.reverse]
  | c :: cs, acc =>
    if isWS c then
      if acc = [] then pyWordsAux cs [] else acc.reverse :: pyWordsAux cs []
    else pyWordsAux cs (c :: acc)

/-- Python `str.split()` (no argument): split on runs of whitespace, dropping
empty pieces. -/
def pyWords (s : PyStr) : List PyStr := pyWordsAux s []

/-! ## DurationMatcher (`src/pipeline/voice_over_tts.py`)

`fit_tts_into_segment(audio, target_ms)` decides between padding with
silence, a tempo-scaling chain via ffmpeg, a hard trim, and a tail trim.
Audio is modelled as `List Int`, one entry per millisecond. -/

/-- One millisecond-granular audio clip (see module docstring). -/
abbrev Audio := List Int

/-- Constant `MAX_COMPRESSION = 1.10` from `voice_over_tts.py`. -/
def MAX_COMPRESSION : ℚ := 11 / 10

/-- The four exit paths of `fit_tts_into_segment`, in source order:
pad with silence, hard trim (prints the quality warning), ffmpeg tempo
scaling, plain tail trim. -/
inductive FitBranch
  | padSilence
  | hardTrim
  | tempoScale
  | trimTail
deriving DecidableEq, Repr

/-- Which branch of `fit_tts_into_segment` runs, as a function of the
clip length `current_ms = len(audio)` and `target_ms`.  Mirrors the
source's `if` cascade: `current_ms < target_ms`, then
`ratio > MAX_COMPRESSION`, then `ratio > 1.01`, else the final trim. -/
def fitBranch (current_ms target_ms : ℕ) : FitBranch :=
  if current_ms < target_ms then .padSilence
  else
    let ratio : ℚ := (current_ms : ℚ) / (target_ms : ℚ)
    if ratio > MAX_COMPRESSION then .hardTrim
    else if ratio > 101 / 100 then .tempoScale
    else .trimTail

/-- Model of `fit_tts_into_segment(audio, target_ms)`.  The ffmpeg round-trip
`stretch_with_ffmpeg(audio, 1/ratio)` is abstracted as the parameter
`stretch` (its output length is not known statically). -/
def fit_tts_into_segment (stretch : Audio → ℚ → Audio)
    (audio : Audio) (target_ms : ℕ) : Audio :=
  let current_ms := audio.length
  if current_ms < target_ms then
    audio ++ List.replicate (target_ms - current_ms) 0
  else
    let ratio : ℚ := (current_ms : ℚ) / (target_ms : ℚ)
    if ratio > MAX_COMPRESSION then audio.take target_ms
    else if ratio > 101 / 100 then
      let stretched := stretch audio (1 / ratio)
      if stretched.length < target_ms then
        stretched ++ List.replicate (target_ms - stretched.length) 0
      else stretched
    else audio.take target_ms

/-! ## Tempo chains (`build_atempo_chain`, `ffmpeg_stretch`)

ffmpeg's `atempo` filter only accepts multipliers in `[0.5, 2.0]`, so both
`voice_over_tts.build_atempo_chain` and `stretch_audio.ffmpeg_stretch`
decompose an out-of-range ratio into a chain of in-range stages. -/

/-- Halving a rational above `2` strictly lowers its ceiling;
this drives the termination of both stage-decomposition loops. -/
theorem ceil_half_lt {x : ℚ} (hx : 2 < x) : ⌈x / 2⌉ < ⌈x⌉ := by
  have h1 : x / 2 ≤ x - 1 := by linarith
  have h2 : ⌈x - 1⌉ = ⌈x⌉ - 1 := by
    rw [show x - 1 = x - ((1 : ℤ) : ℚ) by push_cast; ring, Int.ceil_sub_int]
  have h3 : ⌈x / 2⌉ ≤ ⌈x - 1⌉ := Int.ceil_le_ceil h1
  omega

/-- Termination measure for the stage loops: `⌈r⌉ + ⌈1/r⌉`. -/
def stageMeasure (r : ℚ) : ℕ := (⌈r⌉ + ⌈1 / r⌉).toNat

theorem stageMeasure_double {r : ℚ} (h0 : 0 < r) (h : r < 1 / 2) :
    stageMeasure (r / (1 / 2)) < stageMeasure r := by
  have hdd : r / (1 / 2) = 2 * r := by ring
  have hc1 : ⌈(2 : ℚ) * r⌉ = 1 := by
    rw [Int.ceil_eq_iff]
    constructor <;> push_cast <;> linarith
  have hc2 : ⌈r⌉ = 1 := by
    rw [Int.ceil_eq_iff]
    constructor <;> push_cast <;> linarith
  have hinv : 2 < 1 / r := by
    rw [lt_div_iff₀ h0]; linarith
  have hkey : ⌈1 / (2 * r)⌉ < ⌈1 / r⌉ := by
    have heq : 1 / (2 * r) = (1 / r) / 2 := by
      rw [div_div, mul_comm r 2]
    rw [heq]
    exact ceil_half_lt hinv
  have hpos : 0 < ⌈1 / (2 * r)⌉ := by
    apply Int.ceil_pos.mpr
    positivity
  unfold stageMeasure
  rw [hdd, hc1, hc2]
  omega

theorem stageMeasure_half {r : ℚ} (h0 : 0 < r) (h : 2 < r) :
    stageMeasure (r / 2) < stageMeasure r := by
  have hc1 : ⌈(1 : ℚ) / r⌉ = 1 := by
    rw [Int.ceil_eq_iff]
    have hlt : 1 / r < 1 / 2 := by
      rw [div_lt_div_iff h0 (by norm_num)]; linarith
    have hp : (0 : ℚ) < 1 / r := by positivity
    constructor <;> push_cast <;> linarith
  have hc2 : ⌈(1 : ℚ) / (r / 2)⌉ = 1 := by
    rw [Int.ceil_eq_iff]
    have hr2 : (0 : ℚ) < r / 2 := by linarith
    have hlt : 1 / (r / 2) < 1 := by
      rw [div_lt_one hr2]; linarith
    have hp : (0 : ℚ) < 1 / (r / 2) := by positivity
    constructor <;> push_cast <;> linarith
  have hkey : ⌈r / 2⌉ < ⌈r⌉ := ceil_half_lt h
  have hpos : 0 < ⌈r / 2⌉ := by
    apply Int.ceil_pos.mpr; linarith
  unfold stageMeasure
  rw [hc1, hc2]
  omega

/-- The `while temp_ratio < 0.5 or temp_ratio > 2.0` loop of
`build_atempo_chain`, returning the full list of per-stage multipliers
(the `0.5` / `2.0` stages pushed in the loop, then the in-range
remainder appended after the loop).  The source raises before calling
this for `ratio <= 0`; the `r ≤ 0` branch is dead and returns `[]`. -/
def atempoStages (r : ℚ) : List ℚ :=
  if h0 : r ≤ 0 then []
  else if h1 : r < 1 / 2 then (1 / 2 : ℚ) :: atempoStages (r / (1 / 2))
  else if h2 : 2 < r then (2 : ℚ) :: atempoStages (r / 2)
  else [r]
termination_by stageMeasure r
decreasing_by
  · exact stageMeasure_double (lt_of_not_ge fun hh => h0 hh) h1
  · exact stageMeasure_half (lt_of_not_ge fun hh => h0 hh) h2

/-- Model of `build_atempo_chain(ratio)`: raises (`none`) for `ratio <= 0`,
otherwise yields the stage multipliers of the generated
`atempo=...,atempo=...` filter chain.  (The source renders the final
stage with `:.4f` formatting when printing the filter string; the
multipliers themselves are the values computed by the loop.) -/
def build_atempo_chain (ratio : ℚ) : Option (List ℚ) :=
  if ratio ≤ 0 then none else some (atempoStages ratio)

/-- The `while remaining > 2.0 or remaining < 0.5` loop of
`ffmpeg_stretch`, returning the per-stage multipliers applied through
`ffmpeg_apply` (the loop's `step` values, then the final `remaining`).
For `factor ≤ 0` the source loop never terminates; that branch is dead
here and returns `[]`. -/
def ffmpegStretchStages (r : ℚ) : List ℚ :=
  if h0 : r ≤ 0 then []
  else if hl : 2 < r ∨ r < 1 / 2 then
    -- `step = 2.0 if remaining > 1 else 0.5`, with the conditional pulled to
    -- the top so each branch carries its own recursive call
    if h1 : 1 < r then (2 : ℚ) :: ffmpegStretchStages (r / 2)
    else (1 / 2 : ℚ) :: ffmpegStretchStages (r / (1 / 2))
  else [r]
termination_by stageMeasure r
decreasing_by
  · rcases hl with hgt | hlt
    · exact stageMeasure_half (lt_of_not_ge fun hh => h0 hh) hgt
    · exact absurd h1 (by linarith)
  · rcases hl with hgt | hlt
    · exact absurd hgt (by simp at h1; intro hc; linarith)
    · exact stageMeasure_double (lt_of_not_ge fun hh => h0 hh) hlt

/-! ## Semantic segmenter (`src/pipeline/semantic_segmenter.py`)

`semantic_segment(audio_path, full_text)` detects pauses in the audio with
an energy VAD, splits the text into sentences, merges short ones, splits
long ones, and distributes the result over the pause windows.  The
energy-based pause detector is a floating-point DSP front end; its output
(the list of pause time points, in ms) and the clip length `len(audio)`
enter the pure core below as parameters. -/

/-- Sentence-terminal characters of the regex `[^.!?؟…]+(?:[.!?؟…]+|$)`. -/
def isTerm (c : Char) : Bool :=
  c = '.' || c = '!' || c = '?' || c = '؟' || c = '…'

/-- Scanner for `re.findall(r"[^.!?؟…]+(?:[.!?؟…]+|$)", text)`: `acc`
holds the match in progress (reversed) and `inTerm` records whether the
scanner is inside the match's trailing terminal run.  A terminal
character with no match in progress cannot start a match and is skipped;
a non-terminal character arriving during a terminal run closes the
previous match and starts the next one. -/
def rsAux : PyStr → PyStr → Bool → List PyStr
  | [], acc, _ => if acc = [] then [] else [acc.reverse]
  | c :: cs, acc, inTerm =>
    if isTerm c then
      if acc = [] then rsAux cs [] false
      else rsAux cs (c :: acc) true
    else
      if inTerm then acc.reverse :: rsAux cs [c] false
      else rsAux cs (c :: acc) false

/-- Model of the regex match list: each match of the pattern of
`split_into_sentences` is a
maximal run of non-terminal characters together with the terminal run
following it. -/
def rawSentences (s : PyStr) : List PyStr := rsAux s [] false

/-- Model of `split_into_sentences(text)`: strip the text, find the sentence-like
matches, strip each, and drop the empty ones. -/
def split_into_sentences (text : PyStr) : List PyStr :=
  ((rawSentences (pyStrip text)).map pyStrip).filter (· ≠ [])

/-- The loop body of `merge_short`: `buf` accumulates runs of sentences
shorter than `min_words`; a long sentence first flushes the stripped
buffer, then is emitted itself; a leftover buffer is flushed at the end. -/
def mergeShortGo (minWords : ℕ) : List PyStr → PyStr → List PyStr → List PyStr
  | [], buf, out => if pyStrip buf ≠ [] then out ++ [pyStrip buf] else out
  | s :: rest, buf, out =>
    if (pyWords s).length < minWords then
      mergeShortGo minWords rest (buf ++ ' ' :: s) out
    else
      let out' := if pyStrip buf ≠ [] then out ++ [pyStrip buf] else out
      mergeShortGo minWords rest [] (out' ++ [s])

/-- Model of `merge_short(sentences, min_words)`. -/
def merge_short (sentences : List PyStr) (minWords : ℕ) : List PyStr :=
  mergeShortGo minWords sentences [] []

/-- Model of the space join of a word list. -/
def joinWords : List PyStr → PyStr
  | [] => []
  | w :: ws => w ++ ws.flatMap (fun v => ' ' :: v)

/-- The inner loop of `split_long` for one over-long sentence: words are
packed into groups of exactly `max_words`, the remainder flushed last. -/
def splitLongOne (maxWords : ℕ) (s : PyStr) : List PyStr :=
  let ws := pyWords s
  if ws.length ≤ maxWords then [s]
  else
    let packed := ws.foldl
      (fun (acc : List (List PyStr) × List PyStr) w =>
        let chunk := acc.2 ++ [w]
        if maxWords ≤ chunk.length then (acc.1 ++ [chunk], [])
        else (acc.1, chunk))
      ([], [])
    ((if packed.2 ≠ [] then packed.1 ++ [packed.2] else packed.1).map joinWords)

/-- Model of `split_long(sentences, max_words)`. -/
def split_long (sentences : List PyStr) (maxWords : ℕ) : List PyStr :=
  sentences.flatMap (splitLongOne maxWords)

/-- One output segment of the segmenter: `{"id", "start", "end", "text"}`
with `start`/`end` in seconds (`round(ms / 1000, 3)`, exact here since the
inputs are integral milliseconds). -/
structure PySeg where
  id : ℕ
  start : ℚ
  stop : ℚ
  text : PyStr
deriving DecidableEq, Repr

/-- The second branch of `assign_text_to_pauses` (at least as many windows
as sentences): `for i in range(len(stops) - 1)` visits the consecutive
window pairs `(stops[i], stops[i+1])` — the list `stops.zip stops.tail` —
emitting one sentence per window and breaking once the sentences run out.
`si` doubles as the emitted-segment count, which is what the source
stores in `"id"`. -/
def assignLoop (sents : List PyStr) : List (ℕ × ℕ) → ℕ → List PySeg
  | [], _ => []
  | w :: ws, si =>
    if si < sents.length then
      { id := si
        start := (w.1 : ℚ) / 1000
        stop := (w.2 : ℚ) / 1000
        text := sents.getD si [] } :: assignLoop sents ws (si + 1)
    else []

/-- Model of `assign_text_to_pauses(sentences, pauses, total_ms)`. -/
def assign_text_to_pauses (sentences : List PyStr) (pauses : List ℕ)
    (total_ms : ℕ) : List PySeg :=
  let stops : List ℕ := 0 :: (pauses ++ [total_ms])
  if stops.length - 1 < sentences.length then
    -- fewer windows than sentences: hand them out sequentially, clamping
    -- the window index into range
    sentences.enum.map fun p =>
      { id := p.1
        start := (stops.getD (min p.1 (stops.length - 2)) 0 : ℚ) / 1000
        stop := (stops.getD (min (p.1 + 1) (stops.length - 1)) 0 : ℚ) / 1000
        text := p.2 }
  else assignLoop sentences (stops.zip stops.tail) 0

/-- The pure core of `semantic_segment(audio_path, full_text)`:
`pauses` stands for `detect_pauses_energy(audio_path)` and `total_ms`
for `len(audio)`. -/
def semantic_segment (pauses : List ℕ) (total_ms : ℕ) (fullText : PyStr) :
    List PySeg :=
  let sents := split_into_sentences fullText
  let sents := merge_short sents 5
  let sents := split_long sents 22
  assign_text_to_pauses sents pauses total_ms

/-! ## Chunk builder (`src/pipeline/split_chunks.py`)

`split_into_chunks()` folds the translated segments left to right into
chunks bounded by `MAX_CHARS = 260` characters and `MAX_DURATION = 15`
seconds, then saves each chunk with `save_chunk`, which strips the text.
File I/O and the leading-silence offset (which only shifts the saved
timestamps) are outside the pure core. -/

/-- A translated segment as read from `translated.json`:
`{"start", "end", "dst"}` (times in seconds). -/
structure TSeg where
  start : ℚ
  stop : ℚ
  dst : PyStr
deriving DecidableEq, Repr

/-- A chunk accumulated by `split_into_chunks` before saving:
`(current_start, current_end, current_text)`. -/
structure RawChunk where
  start : ℚ
  stop : ℚ
  text : PyStr
deriving DecidableEq, Repr

/-- Constant `MAX_CHARS = 260`. -/
def MAX_CHARS : ℕ := 260

/-- Constant `MAX_DURATION = 15`. -/
def MAX_DURATION : ℚ := 15

/-- The `for seg in segments` loop of `split_into_chunks`: close the
running chunk when adding the segment would exceed `MAX_CHARS` or when
`seg["end"] - current_start` exceeds `MAX_DURATION`; always append
`seg["dst"] + " "` to the running text afterwards.  The final running
chunk is appended after the loop. -/
def chunksLoop : List TSeg → PyStr → ℚ → ℚ → List RawChunk → List RawChunk
  | [], ct, cs, ce, acc => acc ++ [⟨cs, ce, ct⟩]
  | seg :: rest, ct, cs, ce, acc =>
    let text := seg.dst
    let duration := seg.stop - cs
    if MAX_CHARS < ct.length + text.length ∨ MAX_DURATION < duration then
      chunksLoop rest (text ++ [' ']) seg.start seg.stop (acc ++ [⟨cs, ce, ct⟩])
    else
      chunksLoop rest (ct ++ text ++ [' ']) cs seg.stop acc

/-- The pure core of `split_into_chunks()`: the list of raw chunks built
from the segment list (the source returns early, creating no chunks, when
the list is empty). -/
def split_into_chunks : List TSeg → List RawChunk
  | [] => []
  | s0 :: rest => chunksLoop (s0 :: rest) [] s0.start s0.stop []

/-- The chunk texts as written by `save_chunk` (`text.strip()`). -/
def savedChunkTexts (segs : List TSeg) : List PyStr :=
  (split_into_chunks segs).map (fun c => pyStrip c.text)

/-! ## Translation integration checks (`src/pipeline/translate_chunks.py`)

`translate_segments` sends the non-empty Whisper segments to the
translation service and validates the structured response before saving
anything.  The network call is external; the pure core below takes the
parsed response (`translated_payload["segments"]`) as a parameter and
returns either the list that step 5 would save, or the `RuntimeError`
message raised before any file is written. -/

/-- A Whisper segment `{"id", "start", "end", "text"}`. -/
structure WSeg where
  id : ℤ
  start : ℚ
  stop : ℚ
  text : PyStr
deriving DecidableEq, Repr

/-- One entry of the service response: `{"id", "dst"}`. -/
structure RespSeg where
  id : ℤ
  dst : PyStr
deriving DecidableEq, Repr

/-- An output row of `translated.json`:
`{"id", "start", "end", "src", "dst"}`. -/
structure OSeg where
  id : ℤ
  start : ℚ
  stop : ℚ
  src : PyStr
  dst : PyStr
deriving DecidableEq, Repr

/-- Model of the response dictionary lookup
the dict comprehension over `translated_non_empty` keyed by id: the value
of the last response entry carrying id `i`, if any. -/
def translatedDict (resp : List RespSeg) (i : ℤ) : Option PyStr :=
  (resp.reverse.find? (fun t => t.id = i)).map RespSeg.dst

/-- The `for seg in segments` reassembly loop of `translate_segments`:
empty-text segments get `dst = ""` without consulting the response;
non-empty segments must find their id in the response dictionary or the
function raises `RuntimeError("Missing translation for id ...")`. -/
def buildTranslated (dict : ℤ → Option PyStr) : List WSeg →
    Except PyStr (List OSeg)
  | [] => .ok []
  | seg :: rest =>
    if pyStrip seg.text = [] then
      (buildTranslated dict rest).map
        (⟨seg.id, seg.start, seg.stop, seg.text, []⟩ :: ·)
    else
      match dict seg.id with
      | none => .error "Missing translation for id".toList
      | some dst =>
        (buildTranslated dict rest).map
          (⟨seg.id, seg.start, seg.stop, seg.text, pyStrip dst⟩ :: ·)

/-- The validation-and-reassembly core of `translate_segments`: `segments`
from `transcript.json`, `resp` the parsed `translated_payload["segments"]`.
An `.error` is a `RuntimeError` raised before step 5 saves any output. -/
def translate_segments (segments : List WSeg) (resp : List RespSeg) :
    Except PyStr (List OSeg) :=
  let nonEmpty := segments.filter (fun s => pyStrip s.text ≠ [])
  if resp.length ≠ nonEmpty.length then .error "GPT LOST SEGMENTS".toList
  else buildTranslated (translatedDict resp) segments

/-! ## Speech-onset locator (`src/pipeline/speech_onset.py`)

`detect_speech_onset` computes overlapping-frame speech-band energies via
FFT, smooths them, derives a threshold from the opening noise, and then
scans for the first frame that exceeds the threshold and begins a
`hold_frames`-long window whose *mean* exceeds the threshold.  The FFT
front end is floating-point DSP; the scan below takes the computed
`energies`, `threshold` and `hold_frames` as parameters. -/

/-- Model of `energies[idx : idx + hold].mean()` (the slice has exactly `hold`
elements whenever `idx + hold ≤ energies.length`). -/
def windowMean (energies : List ℚ) (idx hold : ℕ) : ℚ :=
  ((energies.drop idx).take hold).sum / (hold : ℚ)

/-- The final `for idx, energy in enumerate(energies)` scan of
`detect_speech_onset`: `rest` is the part of `energies` not yet visited
and `idx` the index of its first element.  Frames at or below the
threshold are skipped; the first above-threshold frame whose window
`energies[idx : idx + hold]` is shorter than `hold` breaks out (`none`);
a full window whose mean exceeds the threshold returns its first frame
index. -/
def onsetScan (energies : List ℚ) (threshold : ℚ) (hold : ℕ) :
    List ℚ → ℕ → Option ℕ
  | [], _ => none
  | e :: rest, idx =>
    if e ≤ threshold then onsetScan energies threshold hold rest (idx + 1)
    else if energies.length < idx + hold then none
    else if threshold < windowMean energies idx hold then some idx
    else onsetScan energies threshold hold rest (idx + 1)

/-- The decision core of `detect_speech_onset`: the returned timestamp is
`idx * (step_len / 16000)` seconds for the found frame, and `0.0` when the
scan finds nothing. -/
def detect_speech_onset (energies : List ℚ) (threshold : ℚ) (hold : ℕ)
    (stepLen : ℕ) : ℚ :=
  match onsetScan energies threshold hold energies 0 with
  | none => 0
  | some idx => (idx : ℚ) * ((stepLen : ℚ) / 16000)

/-- The property the scan actually selects for: frame `i` is above the
threshold, a full hold window starts at `i`, and that window's mean is
above the threshold. -/
def startsHold (energies : List ℚ) (threshold : ℚ) (hold i : ℕ) : Bool :=
  decide (i + hold ≤ energies.length) &&
    decide (threshold < energies.getD i 0) &&
    decide (threshold < windowMean energies i hold)

/-- The spec's reading of a sustained onset at frame `i`: a full hold
window starts at `i` and every frame of it stays above the threshold. -/
def StaysAbove (energies : List ℚ) (threshold : ℚ) (hold i : ℕ) : Prop :=
  i + hold ≤ energies.length ∧
    ∀ j < hold, threshold < energies.getD (i + j) 0

/-! ## VAD segment filter (`src/helpers/vad_filter.py`)

`VoiceActivityDetector.filter_segments` walks the Whisper segments and
blanks the text of those whose audio slice carries no detected voice (or
whose window is empty), appending every segment to the output.  The WebRTC
VAD verdict on the slice `audio[start_ms:end_ms]` is abstracted as the
parameter `hasVoice` over the integral millisecond bounds the source
computes. -/

/-- A Whisper segment as handled by the VAD filter; `extra` stands for
all fields other than `start`/`end`/`text` (id, confidence, ...). -/
structure VSeg (α : Type) where
  start : ℚ
  stop : ℚ
  text : PyStr
  extra : α
deriving DecidableEq, Repr

/-- Model of `VoiceActivityDetector.filter_segments(segments, audio_path)`:
`hasVoice start_ms end_ms` stands for
`self._has_voice_in_slice(audio[start_ms:end_ms])`. -/
def filter_segments {α : Type} (hasVoice : ℤ → ℤ → Bool)
    (segments : List (VSeg α)) : List (VSeg α) :=
  segments.map fun seg =>
    let start_ms : ℤ := ⌊seg.start * 1000⌋
    let end_ms : ℤ := ⌈seg.stop * 1000⌉
    if end_ms ≤ start_ms then { seg with text := [] }
    else if hasVoice start_ms end_ms then seg
    else { seg with text := [] }

/-! ## Supporting lemmas for the duration matcher -/

/-- A ratio above `MAX_COMPRESSION` means the clip is strictly longer
than the target (for a positive target). -/
theorem target_lt_length_of_ratio (audio : Audio) (target : ℕ)
    (ht : 0 < target) (hr : MAX_COMPRESSION < (audio.length : ℚ) / target) :
    target < audio.length := by
  by_contra hc
  push_neg at hc
  have h1 : (audio.length : ℚ) / target ≤ 1 := by
    rw [div_le_one (by exact_mod_cast ht)]
    exact_mod_cast hc
  rw [MAX_COMPRESSION] at hr
  linarith

/-- On the over-tolerance path, `fit_tts_into_segment` is the hard trim. -/
theorem fit_eq_take_of_ratio (stretch : Audio → ℚ → Audio) (audio : Audio)
    (target : ℕ) (ht : 0 < target)
    (hr : MAX_COMPRESSION < (audio.length : ℚ) / target) :
    fit_tts_into_segment stretch audio target = audio.take target := by
  have hlen := target_lt_length_of_ratio audio target ht hr
  unfold fit_tts_into_segment
  rw [if_neg (by omega)]
  simp only
  rw [if_pos hr]

/-- On the over-tolerance path, the branch taken is the hard trim. -/
theorem fitBranch_hardTrim_of_ratio (audio : Audio) (target : ℕ)
    (ht : 0 < target) (hr : MAX_COMPRESSION < (audio.length : ℚ) / target) :
    fitBranch audio.length target = FitBranch.hardTrim := by
  have hlen := target_lt_length_of_ratio audio target ht hr
  unfold fitBranch
  rw [if_neg (by omega)]
  simp only
  rw [if_pos hr]

/-! ## Claim theorems -/

/-- C1 (counterexample): for a 12,000 ms clip and a 10,000 ms window the
overrun ratio is 1.2, which exceeds `MAX_COMPRESSION = 1.10`, so
`fit_tts_into_segment` takes the hard-trim branch — not the tempo-scaling
branch the claim asserts. -/
theorem C1_counterexample :
    fitBranch 12000 10000 = FitBranch.hardTrim ∧
    fitBranch 12000 10000 ≠ FitBranch.tempoScale := by
  have h1 : fitBranch 12000 10000 = FitBranch.hardTrim := by
    unfold fitBranch
    rw [if_neg (by norm_num)]
    simp only
    rw [if_pos (by rw [MAX_COMPRESSION]; norm_num)]
  exact ⟨h1, by rw [h1]; exact fun hc => FitBranch.noConfusion hc⟩

/-- C1 (amended): for a synthesized clip of 12,000 ms fitted into a
10,000 ms window, `fit_tts_into_segment` hard-trims (ratio 1.2 exceeds
the 10% tolerance `MAX_COMPRESSION = 1.10`, so tempo scaling is *not*
applied), and the returned audio's length is exactly 10,000 ms — in
particular within 15 ms of 10,000 ms. -/
theorem C1_hard_trim_at_ratio_1_2 (stretch : Audio → ℚ → Audio)
    (audio : Audio) (h : audio.length = 12000) :
    fit_tts_into_segment stretch audio 10000 = audio.take 10000 ∧
    (fit_tts_into_segment stretch audio 10000).length = 10000 ∧
    fitBranch audio.length 10000 = FitBranch.hardTrim := by
  have hr : MAX_COMPRESSION < (audio.length : ℚ) / 10000 := by
    rw [h, MAX_COMPRESSION]; norm_num
  have heq := fit_eq_take_of_ratio stretch audio 10000 (by norm_num) hr
  refine ⟨heq, ?_, fitBranch_hardTrim_of_ratio audio 10000 (by norm_num) hr⟩
  rw [heq, List.length_take, h]
  omega

/-- C1 (witness for the amended theorem): a concrete 12,000 ms clip. -/
theorem C1_witness :
    fit_tts_into_segment (fun a _ => a) (List.replicate 12000 0) 10000 =
      (List.replicate 12000 (0 : ℤ)).take 10000 ∧
    (fit_tts_into_segment (fun a _ => a) (List.replicate 12000 0) 10000).length
      = 10000 ∧
    fitBranch (List.replicate 12000 (0 : ℤ)).length 10000 =
      FitBranch.hardTrim :=
  C1_hard_trim_at_ratio_1_2 (fun a _ => a) (List.replicate 12000 0)
    (List.length_replicate 12000 0)

/-- C5: a clip whose overrun ratio exceeds the compression tolerance
(`MAX_COMPRESSION = 1.10`), e.g. a 30,000 ms clip over a 10,000 ms
window (ratio 3.0), is returned hard-trimmed to exactly `target_ms`;
the branch taken is the warning-printing hard trim, and this path raises
no error. -/
theorem C5_overrun_hard_trims (stretch : Audio → ℚ → Audio) (audio : Audio)
    (target : ℕ) (ht : 0 < target)
    (hr : MAX_COMPRESSION < (audio.length : ℚ) / target) :
    fit_tts_into_segment stretch audio target = audio.take target ∧
    (fit_tts_into_segment stretch audio target).length = target ∧
    fitBranch audio.length target = FitBranch.hardTrim := by
  have hlen := target_lt_length_of_ratio audio target ht hr
  have heq := fit_eq_take_of_ratio stretch audio target ht hr
  refine ⟨heq, ?_, fitBranch_hardTrim_of_ratio audio target ht hr⟩
  rw [heq, List.length_take]
  omega

/-- C5 (witness): the spec's concrete 30,000 ms clip over a 10,000 ms
window. -/
theorem C5_witness :
    fit_tts_into_segment (fun a _ => a) (List.replicate 30000 0) 10000 =
      (List.replicate 30000 (0 : ℤ)).take 10000 ∧
    (fit_tts_into_segment (fun a _ => a) (List.replicate 30000 0) 10000).length
      = 10000 ∧
    fitBranch (List.replicate 30000 (0 : ℤ)).length 10000 =
      FitBranch.hardTrim :=
  C5_overrun_hard_trims (fun a _ => a) (List.replicate 30000 0) 10000
    (by norm_num)
    (by rw [List.length_replicate, MAX_COMPRESSION]; norm_num)

/-- C6: every clip strictly shorter than `target_ms` is returned with
trailing silence appended, making the result exactly `target_ms` long. -/
theorem C6_pad_with_silence (stretch : Audio → ℚ → Audio) (audio : Audio)
    (target : ℕ) (h : audio.length < target) :
    fit_tts_into_segment stretch audio target =
      audio ++ List.replicate (target - audio.length) 0 ∧
    (fit_tts_into_segment stretch audio target).length = target := by
  have heq : fit_tts_into_segment stretch audio target =
      audio ++ List.replicate (target - audio.length) 0 := by
    unfold fit_tts_into_segment
    rw [if_pos h]
  refine ⟨heq, ?_⟩
  rw [heq, List.length_append, List.length_replicate]
  omega

/-- C6 (witness): a 1 ms clip padded into a 3 ms window. -/
theorem C6_witness :
    fit_tts_into_segment (fun a _ => a) [5] 3 =
      [5] ++ List.replicate (3 - [(5 : ℤ)].length) 0 ∧
    (fit_tts_into_segment (fun a _ => a) [5] 3).length = 3 :=
  C6_pad_with_silence (fun a _ => a) [5] 3 (by norm_num)

/-- Every stage of `atempoStages` is in the supported `[0.5, 2.0]` range
and the stages multiply back to the input ratio. -/
theorem atempoStages_sound (r : ℚ) (h0 : 0 < r) :
    (∀ s ∈ atempoStages r, 1 / 2 ≤ s ∧ s ≤ 2) ∧ (atempoStages r).prod = r := by
  induction r using atempoStages.induct with
  | case1 r hr => exact absurd h0 (not_lt.mpr hr)
  | case2 r hr hlt ih =>
    rw [atempoStages, dif_neg hr, dif_pos hlt]
    have hpos : 0 < r / (1 / 2) := by positivity
    obtain ⟨ihb, ihp⟩ := ih hpos
    constructor
    · intro s hs
      rcases List.mem_cons.mp hs with hh | hh
      · rw [hh]; norm_num
      · exact ihb s hh
    · rw [List.prod_cons, ihp]
      ring
  | case3 r hr hge hgt ih =>
    rw [atempoStages, dif_neg hr, dif_neg hge, dif_pos hgt]
    have hpos : 0 < r / 2 := by
      have : 0 < r := lt_of_not_ge fun hh => hr hh
      positivity
    obtain ⟨ihb, ihp⟩ := ih hpos
    constructor
    · intro s hs
      rcases List.mem_cons.mp hs with hh | hh
      · rw [hh]; norm_num
      · exact ihb s hh
    · rw [List.prod_cons, ihp]
      ring
  | case4 r hr hge hle =>
    rw [atempoStages, dif_neg hr, dif_neg hge, dif_neg hle]
    refine ⟨?_, by simp⟩
    intro s hs
    rw [List.mem_singleton.mp hs]
    constructor
    · exact le_of_not_lt hge
    · exact le_of_not_lt hle

/-- Every stage applied by `ffmpeg_stretch` is in `[0.5, 2.0]` and the
stages multiply back to the input factor. -/
theorem ffmpegStretchStages_sound (r : ℚ) (h0 : 0 < r) :
    (∀ s ∈ ffmpegStretchStages r, 1 / 2 ≤ s ∧ s ≤ 2) ∧
      (ffmpegStretchStages r).prod = r := by
  induction r using ffmpegStretchStages.induct with
  | case1 r hr => exact absurd h0 (not_lt.mpr hr)
  | case2 r hr hl h1 ih =>
    rw [ffmpegStretchStages, dif_neg hr, dif_pos hl, dif_pos h1]
    have hpos : 0 < r / 2 := by positivity
    obtain ⟨ihb, ihp⟩ := ih hpos
    constructor
    · intro s hs
      rcases List.mem_cons.mp hs with hh | hh
      · rw [hh]; norm_num
      · exact ihb s hh
    · rw [List.prod_cons, ihp]
      ring
  | case3 r hr hl h1 ih =>
    rw [ffmpegStretchStages, dif_neg hr, dif_pos hl, dif_neg h1]
    have hpos : 0 < r / (1 / 2) := by positivity
    obtain ⟨ihb, ihp⟩ := ih hpos
    constructor
    · intro s hs
      rcases List.mem_cons.mp hs with hh | hh
      · rw [hh]; norm_num
      · exact ihb s hh
    · rw [List.prod_cons, ihp]
      ring
  | case4 r hr hl =>
    rw [ffmpegStretchStages, dif_neg hr, dif_neg hl]
    push_neg at hl
    refine ⟨?_, by simp⟩
    intro s hs
    rw [List.mem_singleton.mp hs]
    exact ⟨hl.2, hl.1⟩

/-- C4: for every tempo ratio `r > 0` outside the single-stage range
`[0.5, 2.0]`, `build_atempo_chain` succeeds and its stage multipliers —
and likewise the stage sequence `ffmpeg_stretch` applies — are each
individually within `[0.5, 2.0]` and multiply back to exactly `r`. -/
theorem C4_tempo_chain_product (r : ℚ) (h0 : 0 < r)
    (hout : r < 1 / 2 ∨ 2 < r) :
    build_atempo_chain r = some (atempoStages r) ∧
    (∀ s ∈ atempoStages r, 1 / 2 ≤ s ∧ s ≤ 2) ∧
    (atempoStages r).prod = r ∧
    (∀ s ∈ ffmpegStretchStages r, 1 / 2 ≤ s ∧ s ≤ 2) ∧
    (ffmpegStretchStages r).prod = r := by
  obtain ⟨ab, ap⟩ := atempoStages_sound r h0
  obtain ⟨fb, fp⟩ := ffmpegStretchStages_sound r h0
  refine ⟨?_, ab, ap, fb, fp⟩
  rw [build_atempo_chain, if_neg (not_le.mpr h0)]

/-- C4 (witness): the out-of-range ratio `r = 3`. -/
theorem C4_witness :
    build_atempo_chain 3 = some (atempoStages 3) ∧
    (∀ s ∈ atempoStages 3, 1 / 2 ≤ s ∧ s ≤ 2) ∧
    (atempoStages 3).prod = 3 ∧
    (∀ s ∈ ffmpegStretchStages 3, 1 / 2 ≤ s ∧ s ≤ 2) ∧
    (ffmpegStretchStages 3).prod = 3 :=
  C4_tempo_chain_product 3 (by norm_num) (Or.inr (by norm_num))

/-! ## Supporting lemmas for the segment allocator -/

/-- Once the sentences are exhausted the window loop emits nothing. -/
theorem assignLoop_nil_of_le (sents : List PyStr) (ws : List (ℕ × ℕ))
    (si : ℕ) (h : sents.length ≤ si) : assignLoop sents ws si = [] := by
  cases ws with
  | nil => rfl
  | cons w ws => simp [assignLoop, Nat.not_lt.mpr h]

/-- The first window of the stop list is `(0, first pause or clip end)`. -/
theorem zip_stops_head (pauses : List ℕ) (total : ℕ) :
    ∃ ws, (0 :: (pauses ++ [total])).zip (pauses ++ [total]) =
      (0, pauses.headD total) :: ws := by
  cases pauses with
  | nil => exact ⟨[], rfl⟩
  | cons p ps => exact ⟨_, rfl⟩

/-- With a single sentence, `assign_text_to_pauses` emits exactly one
segment, spanning from 0 to the first stop (the first pause, or the clip
end when there are no pauses). -/
theorem assign_single_sentence (s : PyStr) (pauses : List ℕ) (total : ℕ) :
    assign_text_to_pauses [s] pauses total =
      [{ id := 0, start := 0,
         stop := ((pauses.headD total : ℕ) : ℚ) / 1000, text := s }] := by
  simp only [assign_text_to_pauses]
  rw [if_neg (by simp)]
  obtain ⟨ws, hz⟩ := zip_stops_head pauses total
  simp only [List.tail_cons]
  rw [hz]
  simp only [assignLoop, List.length_singleton, Nat.zero_lt_one, if_pos,
    assignLoop_nil_of_le [s] ws 1 (le_refl 1)]
  simp

/-- With zero pauses, every sentence gets a segment spanning the entire
clip `[0, total_ms]`. -/
theorem assign_no_pauses (l : List PyStr) (total : ℕ) :
    assign_text_to_pauses l [] total =
      l.enum.map (fun p =>
        { id := p.1, start := 0, stop := (total : ℚ) / 1000, text := p.2 }) := by
  match l with
  | [] =>
    simp only [assign_text_to_pauses]
    rw [if_neg (by simp)]
    simp [assignLoop_nil_of_le]
  | [s] =>
    simp only [assign_text_to_pauses]
    rw [if_neg (by simp)]
    show assignLoop [s] [(0, total)] 0 = _
    simp [assignLoop, assignLoop_nil_of_le]
  | a :: b :: rest =>
    simp only [assign_text_to_pauses]
    rw [if_pos (by simp)]
    apply List.map_congr_left
    intro p _
    have hm0 : min p.1 ((0 :: (([] : List ℕ) ++ [total])).length - 2) = 0 := by
      simp
    have hm1 : min (p.1 + 1) ((0 :: (([] : List ℕ) ++ [total])).length - 1)
        = 1 := by
      simp
    rw [hm0, hm1]
    norm_num

/-! ## C2 / C3 -/

/-- C2 (counterexample): for pause points `[800, 1450]` in a 2100 ms clip
(compatible with speech regions `(0,500), (820,1380), (1520,2100)`) and
the text `"Первый. Второй. Третий."`, `semantic_segment` returns one
single segment carrying the whole merged text — not three segments —
because `merge_short` glues sentences shorter than 5 words together. -/
theorem C2_counterexample :
    semantic_segment [800, 1450] 2100 "Первый. Второй. Третий.".toList =
      [{ id := 0, start := 0, stop := 4 / 5,
         text := "Первый. Второй. Третий.".toList }] ∧
    (semantic_segment [800, 1450] 2100 "Первый. Второй. Третий.".toList).length
      ≠ 3 := by
  have hsents :
      split_long
        (merge_short (split_into_sentences "Первый. Второй. Третий.".toList) 5)
        22 = ["Первый. Второй. Третий.".toList] := by decide
  have heq : semantic_segment [800, 1450] 2100 "Первый. Второй. Третий.".toList
      = [{ id := 0, start := 0,
           stop := ((([800, 1450] : List ℕ).headD 2100 : ℕ) : ℚ) / 1000,
           text := "Первый. Второй. Третий.".toList }] := by
    show assign_text_to_pauses
        (split_long
          (merge_short (split_into_sentences "Первый. Второй. Третий.".toList) 5)
          22) [800, 1450] 2100 = _
    rw [hsents]
    exact assign_single_sentence _ [800, 1450] 2100
  rw [heq]
  refine ⟨?_, by simp⟩
  norm_num [List.headD]

/-- C2 (amended): for *every* pause list and clip length, the allocator
run on `"Первый. Второй. Третий."` returns exactly one segment, whose
text is the whole (merged) input text and which spans from 0 to the first
stop (the first pause point, or the clip end when no pauses exist); the
three sentences are never distributed over three windows. -/
theorem C2_merged_single_segment (pauses : List ℕ) (total_ms : ℕ) :
    semantic_segment pauses total_ms "Первый. Второй. Третий.".toList =
      [{ id := 0, start := 0,
         stop := ((pauses.headD total_ms : ℕ) : ℚ) / 1000,
         text := "Первый. Второй. Третий.".toList }] := by
  have hsents :
      split_long
        (merge_short (split_into_sentences "Первый. Второй. Третий.".toList) 5)
        22 = ["Первый. Второй. Третий.".toList] := by decide
  show assign_text_to_pauses
      (split_long
        (merge_short (split_into_sentences "Первый. Второй. Третий.".toList) 5)
        22) pauses total_ms = _
  rw [hsents]
  exact assign_single_sentence _ pauses total_ms

/-- C3 (counterexample): with zero pauses and a two-sentence text, the
allocator returns two segments (each spanning the whole clip), not the
single whole-clip segment the claim describes. -/
theorem C3_counterexample :
    (semantic_segment [] 2100
        "Aaa bbb ccc ddd eee. Fff ggg hhh iii jjj.".toList).length = 2 ∧
    (semantic_segment [] 2100
        "Aaa bbb ccc ddd eee. Fff ggg hhh iii jjj.".toList).length ≠ 1 := by
  have hunits :
      split_long
        (merge_short
          (split_into_sentences
            "Aaa bbb ccc ddd eee. Fff ggg hhh iii jjj.".toList) 5) 22
      = ["Aaa bbb ccc ddd eee.".toList, "Fff ggg hhh iii jjj.".toList] := by
    decide
  have heq : semantic_segment [] 2100
        "Aaa bbb ccc ddd eee. Fff ggg hhh iii jjj.".toList
      = (split_long
          (merge_short
            (split_into_sentences
              "Aaa bbb ccc ddd eee. Fff ggg hhh iii jjj.".toList) 5)
          22).enum.map (fun p =>
            { id := p.1, start := 0, stop := ((2100 : ℕ) : ℚ) / 1000,
              text := p.2 }) := by
    show assign_text_to_pauses
        (split_long
          (merge_short
            (split_into_sentences
              "Aaa bbb ccc ddd eee. Fff ggg hhh iii jjj.".toList) 5)
          22) [] 2100 = _
    exact assign_no_pauses _ 2100
  rw [heq, hunits]
  constructor <;> simp

/-- C3 (amended): when zero pauses are detected, the allocator never
raises: it returns one segment per sentence unit, each spanning the
entire clip `[0, total_ms]`, the units together carrying the entire
(cleaned) text; in particular a single whole-clip segment with the whole
text exactly when the text forms one unit, and an empty list for empty
text. -/
theorem C3_zero_pauses_full_span (total_ms : ℕ) (text : PyStr) :
    semantic_segment [] total_ms text =
      (split_long (merge_short (split_into_sentences text) 5) 22).enum.map
        (fun p =>
          { id := p.1, start := 0, stop := (total_ms : ℚ) / 1000,
            text := p.2 }) :=
  assign_no_pauses _ total_ms

/-! ## C7: chunk text conservation -/

/-- Invariant of the chunk-building fold: the concatenation of all chunk
texts equals the already-flushed text, plus the running text, plus every
remaining segment's text followed by the separator space the loop
appends. -/
theorem chunksLoop_text_concat (segs : List TSeg) (ct : PyStr) (cs ce : ℚ)
    (acc : List RawChunk) :
    ((chunksLoop segs ct cs ce acc).map RawChunk.text).flatten =
      ((acc.map RawChunk.text).flatten ++ ct) ++
        (segs.map (fun s => s.dst ++ [' '])).flatten := by
  induction segs generalizing ct cs ce acc with
  | nil => simp [chunksLoop]
  | cons seg rest ih =>
    simp only [chunksLoop]
    split
    · rw [ih]
      simp [List.append_assoc]
    · rw [ih]
      simp [List.append_assoc]

/-- C7 (counterexample): the claim's conservation fails as literally
stated — the chunk builder inserts a separator space after every
segment text, so already for two one-letter segments the concatenated
chunk texts are `"a b"` while the concatenated segment texts are `"ab"`. -/
theorem C7_counterexample :
    ((savedChunkTexts
        [{ start := 0, stop := 1, dst := ['a'] },
         { start := 1, stop := 2, dst := ['b'] }]).flatten ≠
      ((([{ start := 0, stop := 1, dst := ['a'] },
          { start := 1, stop := 2, dst := ['b'] }] : List TSeg).map
            TSeg.dst).filter (· ≠ [])).flatten) := by
  have h1 : savedChunkTexts
      [{ start := 0, stop := 1, dst := ['a'] },
       { start := 1, stop := 2, dst := ['b'] }] = [['a', ' ', 'b']] := by
    show (chunksLoop _ _ _ _ _).map _ = _
    norm_num [chunksLoop, MAX_CHARS, MAX_DURATION]
    decide
  rw [h1]
  decide

/-- C7 (amended): concatenating the raw chunk texts reproduces every
segment's target text — empty or not — each followed by the single
separator space the builder appends; hence the non-space characters of
the saved chunk texts, concatenated in order, are exactly the non-space
characters of the segment texts in order.  (Empty-text segments
contribute only a separator, but they *can* force a chunk boundary
through the duration check, as the second conjunct shows: a long
empty-text segment between two short spoken ones yields three chunks,
the middle one blank.) -/
theorem C7_text_conservation :
    (∀ segs : List TSeg,
      ((split_into_chunks segs).map RawChunk.text).flatten =
        (segs.map (fun s => s.dst ++ [' '])).flatten) ∧
    savedChunkTexts
        [{ start := 0, stop := 1, dst := ['a'] },
         { start := 1, stop := 20, dst := [] },
         { start := 20, stop := 21, dst := ['b'] }] =
      [['a'], [], ['b']] := by
  constructor
  · intro segs
    match segs with
    | [] => rfl
    | s0 :: rest =>
      show ((chunksLoop (s0 :: rest) [] s0.start s0.stop []).map
          RawChunk.text).flatten = _
      rw [chunksLoop_text_concat]
      simp
  · show (chunksLoop _ _ _ _ _).map _ = _
    norm_num [chunksLoop, MAX_CHARS, MAX_DURATION]
    decide

/-! ## C8: translation contract violations -/

/-- If some non-empty segment's id has no entry in the response
dictionary, the reassembly loop raises. -/
theorem buildTranslated_error_of_missing (dict : ℤ → Option PyStr)
    (segs : List WSeg)
    (h : ∃ s ∈ segs, pyStrip s.text ≠ [] ∧ dict s.id = none) :
    ∃ msg, buildTranslated dict segs = .error msg := by
  induction segs with
  | nil =>
    obtain ⟨s, hs, _⟩ := h
    cases hs
  | cons a rest ih =>
    obtain ⟨s, hs, hne, hd⟩ := h
    rcases List.mem_cons.mp hs with rfl | hmem
    · simp only [buildTranslated, if_neg hne, hd]
      exact ⟨_, rfl⟩
    · simp only [buildTranslated]
      split
      · obtain ⟨msg, hmsg⟩ := ih ⟨s, hmem, hne, hd⟩
        rw [hmsg]
        exact ⟨msg, rfl⟩
      · cases hda : dict a.id with
        | none => exact ⟨_, rfl⟩
        | some dst =>
          obtain ⟨msg, hmsg⟩ := ih ⟨s, hmem, hne, hd⟩
          rw [hmsg]
          exact ⟨msg, rfl⟩

/-- C8: if the parsed service response has a different segment count than
the non-empty input segments, or lacks a translation for some non-empty
input segment's id, then `translate_segments` raises a `RuntimeError`
(an `.error`, produced before step 5 writes any output file). -/
theorem C8_contract_violation_raises (segments : List WSeg)
    (resp : List RespSeg)
    (h : resp.length ≠ (segments.filter (fun s => pyStrip s.text ≠ [])).length ∨
      ∃ s ∈ segments, pyStrip s.text ≠ [] ∧ translatedDict resp s.id = none) :
    ∃ msg, translate_segments segments resp = .error msg := by
  by_cases hc :
      resp.length = (segments.filter (fun s => pyStrip s.text ≠ [])).length
  · have hmiss : ∃ s ∈ segments, pyStrip s.text ≠ [] ∧
        translatedDict resp s.id = none := by
      rcases h with hcount | hmiss
      · exact absurd hc hcount
      · exact hmiss
    obtain ⟨msg, hmsg⟩ :=
      buildTranslated_error_of_missing (translatedDict resp) segments hmiss
    refine ⟨msg, ?_⟩
    simp only [translate_segments]
    rw [if_neg (by rw [hc]; exact fun hk => hk rfl)]
    exact hmsg
  · refine ⟨"GPT LOST SEGMENTS".toList, ?_⟩
    simp only [translate_segments]
    rw [if_pos hc]

/-- C8 (witness): one non-empty segment and an empty response (count
mismatch 0 ≠ 1). -/
theorem C8_witness :
    ∃ msg, translate_segments
      [{ id := 7, start := 0, stop := 1, text := "hi".toList }] [] =
        .error msg :=
  C8_contract_violation_raises
    [{ id := 7, start := 0, stop := 1, text := "hi".toList }] []
    (Or.inl (by decide))

/-! ## C9: onset scan characterization -/

/-- The scan started on the suffix `es.drop idx` returns the first index
`≥ idx` whose frame is above threshold and begins a full hold window with
above-threshold mean. -/
theorem onsetScan_eq_find (es : List ℚ) (t : ℚ) (hold : ℕ) :
    ∀ (rest : List ℚ) (idx : ℕ), rest = es.drop idx →
      onsetScan es t hold rest idx =
        (List.range' idx rest.length).find?
          (fun i => startsHold es t hold i) := by
  intro rest
  induction rest with
  | nil => intro idx _; rfl
  | cons e r ih =>
    intro idx hdrop
    have hget : es[idx]? = some e := by
      rw [← List.head?_drop, ← hdrop]; rfl
    have hgetD : es.getD idx 0 = e := by
      rw [List.getD_eq_getElem?_getD, hget]; rfl
    have hdrop' : r = es.drop (idx + 1) := by
      rw [← List.tail_drop, ← hdrop, List.tail_cons]
    have hlen : (e :: r).length = es.length - idx := by
      rw [hdrop, List.length_drop]
    have hidxlt : idx < es.length := by
      simp only [List.length_cons] at hlen
      omega
    rw [List.length_cons, List.range'_succ]
    simp only [onsetScan]
    by_cases h1 : e ≤ t
    · rw [if_pos h1, ih (idx + 1) hdrop']
      have hP : startsHold es t hold idx = false := by
        unfold startsHold
        rw [hgetD]
        simp [not_lt.mpr h1]
      rw [List.find?_cons_of_neg _ (by simp [hP])]
    · rw [if_neg h1]
      by_cases h2 : es.length < idx + hold
      · rw [if_pos h2]
        symm
        apply List.find?_eq_none.mpr
        intro j hj
        have hjge : idx ≤ j := by
          rcases List.mem_cons.mp hj with rfl | hmem
          · exact le_refl j
          · have := (List.mem_range'_1.mp hmem).1
            omega
        unfold startsHold
        simp only [Bool.and_eq_true, decide_eq_true_eq]
        rintro ⟨⟨hle, -⟩, -⟩
        omega
      · rw [if_neg h2]
        by_cases h3 : t < windowMean es idx hold
        · rw [if_pos h3]
          have hP : startsHold es t hold idx = true := by
            unfold startsHold
            rw [hgetD]
            simp only [Bool.and_eq_true, decide_eq_true_eq]
            exact ⟨⟨by omega, not_le.mp h1⟩, h3⟩
          rw [List.find?_cons_of_pos _ hP]
        · rw [if_neg h3, ih (idx + 1) hdrop']
          have hP : startsHold es t hold idx = false := by
            unfold startsHold
            simp [h3]
          rw [List.find?_cons_of_neg _ (by simp [hP])]

/-- C9 (counterexample): for energies `[0, 3, 0, 9]`, threshold `1` and a
hold window of 3 frames (step 160 samples), *no* frame begins a window
that stays above the threshold throughout — the spec's reading —
yet `detect_speech_onset` does not return 0.0: frame 1 is above the
threshold and its window `[3, 0, 9]` has mean 4 > 1, so the code returns
its timestamp 0.01 s. -/
theorem C9_counterexample :
    detect_speech_onset [0, 3, 0, 9] 1 3 160 = 1 / 100 ∧
    detect_speech_onset [0, 3, 0, 9] 1 3 160 ≠ 0 ∧
    ¬ StaysAbove [0, 3, 0, 9] 1 3 0 ∧ ¬ StaysAbove [0, 3, 0, 9] 1 3 1 ∧
    ¬ StaysAbove [0, 3, 0, 9] 1 3 2 ∧ ¬ StaysAbove [0, 3, 0, 9] 1 3 3 := by
  have hscan : onsetScan [0, 3, 0, 9] 1 3 [0, 3, 0, 9] 0 = some 1 := by
    norm_num [onsetScan, windowMean]
  have hdet : detect_speech_onset [0, 3, 0, 9] 1 3 160 = 1 / 100 := by
    unfold detect_speech_onset
    rw [hscan]
    norm_num
  refine ⟨hdet, by rw [hdet]; norm_num, ?_, ?_, ?_, ?_⟩
  · rintro ⟨-, hall⟩
    have := hall 0 (by norm_num)
    norm_num at this
  · rintro ⟨-, hall⟩
    have := hall 1 (by norm_num)
    norm_num at this
  · rintro ⟨hle, -⟩
    norm_num at hle
  · rintro ⟨hle, -⟩
    norm_num at hle

/-- C9 (amended): the scan of `detect_speech_onset` returns the *first*
frame that exceeds the threshold and begins a full `hold`-frame window
whose **mean** exceeds the threshold (not a window staying above the
threshold throughout), and the function returns that frame's timestamp
`idx * step_len / 16000` — or 0.0 when no such frame exists (so
silence-only input yields 0.0, never an error; a hit at frame 0 also
yields 0.0). -/
theorem C9_onset_characterization (es : List ℚ) (t : ℚ)
    (hold stepLen : ℕ) :
    onsetScan es t hold es 0 =
      (List.range es.length).find? (fun i => startsHold es t hold i) ∧
    detect_speech_onset es t hold stepLen =
      (((List.range es.length).find? (fun i => startsHold es t hold i)).map
        (fun idx => (idx : ℚ) * ((stepLen : ℚ) / 16000))).getD 0 := by
  have h := onsetScan_eq_find es t hold es 0 (by simp)
  have hr : (List.range' 0 es.length).find? (fun i => startsHold es t hold i)
      = (List.range es.length).find? (fun i => startsHold es t hold i) := by
    rw [List.range_eq_range']
  constructor
  · rw [h, hr]
  · unfold detect_speech_onset
    rw [h, hr]
    cases hfind :
        (List.range es.length).find? (fun i => startsHold es t hold i) with
    | none => rfl
    | some i => rfl

/-! ## C10: the VAD filter is a frame-preserving text map -/

/-- C10: `filter_segments` returns exactly as many segments as it was
given, in the same order; for each segment only `text` may change (and
only to the empty string), with `start`, `end` and every other field
unchanged — no segment is ever deleted.  The text is emptied exactly when
the window is empty (`end_ms ≤ start_ms`) or the audio slice has no
detected voice. -/
theorem C10_filter_segments_frame {α : Type} (hasVoice : ℤ → ℤ → Bool)
    (segments : List (VSeg α)) :
    (filter_segments hasVoice segments).length = segments.length ∧
    List.Forall₂ (fun s tg : VSeg α =>
      tg.start = s.start ∧ tg.stop = s.stop ∧ tg.extra = s.extra ∧
      (tg.text = s.text ∨ tg.text = []) ∧
      tg.text = (if (⌈s.stop * 1000⌉ : ℤ) ≤ ⌊s.start * 1000⌋ then []
        else if hasVoice ⌊s.start * 1000⌋ ⌈s.stop * 1000⌉ then s.text
        else []))
      segments (filter_segments hasVoice segments) := by
  constructor
  · simp [filter_segments]
  · induction segments with
    | nil => constructor
    | cons a rest ih =>
      simp only [filter_segments, List.map_cons] at ih ⊢
      refine List.Forall₂.cons ?_ ih
      by_cases h1 : (⌈a.stop * 1000⌉ : ℤ) ≤ ⌊a.start * 1000⌋
      · simp [h1]
      · by_cases h2 : hasVoice ⌊a.start * 1000⌋ ⌈a.stop * 1000⌉
        · simp [h1, h2]
        · simp [h1, h2]

end Dubfilm
